import Mathlib

/-!
Shallow embedding of the core of the `routing` crate (chain accumulator,
network-event model, and the bootstrapping/joining lifecycle states) in
Lean 4, together with proofs of the specification's testable properties.

Translation conventions:
* Rust `BTreeMap` / `BTreeSet` become association lists / lists with
  no-duplicate keys (iteration order is not relied upon by any statement).
* Cryptographic identities and opaque payloads become `Nat`.
* Mutating Rust methods become pure functions returning the result value
  together with the updated state.
-/

set_option linter.unusedSectionVars false

namespace Routing

/-! ## Basic identity and payload types -/

/-- `PublicId`: a stable cryptographic public identity (opaque here). -/
abbrev PublicId := Nat

/-- A detached signature (opaque here). -/
abbrev Signature := Nat

/-- `BlsPublicKeyShare` (opaque here). -/
abbrev BlsPublicKeyShare := Nat

/-- `BlsSignatureShare` (opaque here). -/
abbrev BlsSignatureShare := Nat

/-- `SectionInfoSigPayload` from `chain/network_event.rs`: a BLS public key
share together with the signature share signing the `SectionInfo`. -/
structure SectionInfoSigPayload where
  pub_key_share : BlsPublicKeyShare
  sig_share : BlsSignatureShare
deriving DecidableEq, Repr

/-- `OnlinePayload` from `chain/network_event.rs`. -/
structure OnlinePayload where
  pub_id : PublicId
  age : Nat
deriving DecidableEq, Repr

/-- `Digest256` (opaque here). -/
abbrev Digest256 := Nat

/-- `EldersInfo` snapshot (opaque here: its internals are irrelevant to the
accumulator, which only compares events for equality/order). -/
abbrev EldersInfo := Nat

/-- `SectionKeyInfo` (opaque here). -/
abbrev SectionKeyInfo := Nat

/-- `AckMessagePayload` from `chain/network_event.rs` (section identifier
abstracted to `Nat`). -/
structure AckMessagePayload where
  srcSection : Nat
  ack_version : Nat
deriving DecidableEq, Repr

/-- `SendAckMessagePayload` from `chain/network_event.rs`. -/
structure SendAckMessagePayload where
  ackSection : Nat
  ack_version : Nat
deriving DecidableEq, Repr

/-- `RelocateDetails` (opaque here). -/
abbrev RelocateDetails := Nat

/-- `AccumulatingEvent` from `chain/network_event.rs`: the closed set of
agreements the overlay can reach. -/
inductive AccumulatingEvent where
  | AddElder (id : PublicId)
  | RemoveElder (id : PublicId)
  | Online (payload : OnlinePayload)
  | Offline (id : PublicId)
  | OurMerge
  | NeighbourMerge (digest : Digest256)
  | SectionInfo (info : EldersInfo)
  | TheirKeyInfo (info : SectionKeyInfo)
  | AckMessage (payload : AckMessagePayload)
  | SendAckMessage (payload : SendAckMessagePayload)
  | ParsecPrune
  | Relocate (details : RelocateDetails)
  | User (payload : List Nat)
deriving DecidableEq, Repr

/-- `NetworkEvent` from `chain/network_event.rs`: an accumulating payload
with an optional section-key signature share. -/
structure NetworkEvent where
  payload : AccumulatingEvent
  signature : Option SectionInfoSigPayload
deriving DecidableEq, Repr

/-- `AccumulatingEvent::from_network_event`. -/
def AccumulatingEvent.from_network_event (event : NetworkEvent) :
    AccumulatingEvent × Option SectionInfoSigPayload :=
  (event.payload, event.signature)

/-- `AccumulatingEvent::into_network_event_with`. -/
def AccumulatingEvent.into_network_event_with (self : AccumulatingEvent)
    (signature : Option SectionInfoSigPayload) : NetworkEvent :=
  { payload := self, signature := signature }

/-- `AccumulatingEvent::into_network_event`. -/
def AccumulatingEvent.into_network_event (self : AccumulatingEvent) : NetworkEvent :=
  { payload := self, signature := none }

/-! ## Association lists standing in for `BTreeMap`, lists for `BTreeSet`

The operations mirror the Rust std collection API surface the source uses:
`insert` returns the previous value, `remove` returns the removed value,
`contains` tests membership.  An existing key keeps its position on
replacement; a new key is appended (the source's sorted order is never
relied upon by the claims). -/

section AList

variable {κ : Type} [DecidableEq κ] {α : Type}

/-- Map lookup (`BTreeMap::get`). -/
def alookup (k : κ) : List (κ × α) → Option α
  | [] => none
  | (k', v) :: rest => if k' = k then some v else alookup k rest

/-- Map insert (`BTreeMap::insert`): returns the replaced value, if any,
and the updated map. -/
def ainsert (k : κ) (v : α) : List (κ × α) → Option α × List (κ × α)
  | [] => (none, [(k, v)])
  | (k', v') :: rest =>
    if k' = k then (some v', (k, v) :: rest)
    else
      let r := ainsert k v rest
      (r.1, (k', v') :: r.2)

/-- Map remove (`BTreeMap::remove`): returns the removed value, if any,
and the updated map. -/
def aremove (k : κ) : List (κ × α) → Option α × List (κ × α)
  | [] => (none, [])
  | (k', v') :: rest =>
    if k' = k then (some v', rest)
    else
      let r := aremove k rest
      (r.1, (k', v') :: r.2)

/-- The keys of a map. -/
def akeys (l : List (κ × α)) : List κ := l.map Prod.fst

/-- Set insert (`BTreeSet::insert`): returns `true` iff the element was
new, and the updated set. -/
def sinsert (k : κ) (s : List κ) : Bool × List κ :=
  if k ∈ s then (false, s) else (true, s ++ [k])

@[simp]
theorem akeys_nil : akeys ([] : List (κ × α)) = [] := rfl

@[simp]
theorem akeys_cons (p : κ × α) (l : List (κ × α)) :
    akeys (p :: l) = p.1 :: akeys l := rfl

@[simp]
theorem akeys_append (l l' : List (κ × α)) :
    akeys (l ++ l') = akeys l ++ akeys l' := by
  simp [akeys]

theorem alookup_ainsert_self (k : κ) (v : α) (l : List (κ × α)) :
    alookup k (ainsert k v l).2 = some v := by
  induction l with
  | nil => simp [ainsert, alookup]
  | cons hd tl ih =>
    by_cases h : hd.1 = k
    · simp [ainsert, h, alookup]
    · simp [ainsert, h, alookup, ih]

theorem alookup_ainsert_ne (k k' : κ) (v : α) (l : List (κ × α)) (h : k ≠ k') :
    alookup k' (ainsert k v l).2 = alookup k' l := by
  induction l with
  | nil => simp [ainsert, alookup, h]
  | cons hd tl ih =>
    by_cases hh : hd.1 = k
    · simp [ainsert, alookup, hh, h]
    · simp [ainsert, alookup, hh, ih]

theorem ainsert_fst_eq_alookup (k : κ) (v : α) (l : List (κ × α)) :
    (ainsert k v l).1 = alookup k l := by
  induction l with
  | nil => simp [ainsert, alookup]
  | cons hd tl ih =>
    by_cases h : hd.1 = k
    · simp [ainsert, alookup, h]
    · simp [ainsert, alookup, h, ih]

theorem aremove_fst_eq_alookup (k : κ) (l : List (κ × α)) :
    (aremove k l).1 = alookup k l := by
  induction l with
  | nil => simp [aremove, alookup]
  | cons hd tl ih =>
    by_cases h : hd.1 = k
    · simp [aremove, alookup, h]
    · simp [aremove, alookup, h, ih]

theorem alookup_eq_none_iff (k : κ) (l : List (κ × α)) :
    alookup k l = none ↔ k ∉ akeys l := by
  induction l with
  | nil => simp [alookup]
  | cons hd tl ih =>
    by_cases h : hd.1 = k
    · simp [alookup, h]
    · have hne : k ≠ hd.1 := fun hh => h hh.symm
      simp [alookup, h, ih, hne]

theorem mem_akeys_iff_alookup (k : κ) (l : List (κ × α)) :
    k ∈ akeys l ↔ alookup k l ≠ none := by
  rw [Ne, alookup_eq_none_iff, not_not]

theorem alookup_aremove_self (k : κ) (l : List (κ × α))
    (hnd : (akeys l).Nodup) : alookup k (aremove k l).2 = none := by
  induction l with
  | nil => simp [aremove, alookup]
  | cons hd tl ih =>
    rw [akeys_cons, List.nodup_cons] at hnd
    by_cases h : hd.1 = k
    · rw [aremove, if_pos h]
      rw [alookup_eq_none_iff]
      exact fun hmem => hnd.1 (h ▸ hmem)
    · simp [aremove, h, alookup, ih hnd.2]

theorem alookup_aremove_ne (k k' : κ) (l : List (κ × α)) (h : k ≠ k') :
    alookup k' (aremove k l).2 = alookup k' l := by
  induction l with
  | nil => simp [aremove]
  | cons hd tl ih =>
    by_cases hh : hd.1 = k
    · have hne : hd.1 ≠ k' := fun hc => h (hh ▸ hc)
      simp [aremove, hh, alookup, hne, h]
    · simp [aremove, alookup, hh, ih]

theorem akeys_ainsert (k : κ) (v : α) (l : List (κ × α)) :
    akeys (ainsert k v l).2 =
      if k ∈ akeys l then akeys l else akeys l ++ [k] := by
  induction l with
  | nil => simp [ainsert]
  | cons hd tl ih =>
    obtain ⟨k0, v0⟩ := hd
    by_cases h : k0 = k
    · subst h
      simp [ainsert]
    · have hne : k ≠ k0 := fun hh => h hh.symm
      by_cases hm : k ∈ akeys tl
      · simp [ainsert, h, ih, hm, hne]
      · simp [ainsert, h, ih, hm, hne]

theorem akeys_ainsert_nodup (k : κ) (v : α) (l : List (κ × α))
    (hnd : (akeys l).Nodup) : (akeys (ainsert k v l).2).Nodup := by
  rw [akeys_ainsert]
  by_cases hm : k ∈ akeys l
  · simpa [hm] using hnd
  · rw [if_neg hm]
    rw [List.nodup_append]
    exact ⟨hnd, List.nodup_singleton k, by simp [List.disjoint_right, hm]⟩

theorem akeys_aremove_sublist (k : κ) (l : List (κ × α)) :
    (akeys (aremove k l).2).Sublist (akeys l) := by
  induction l with
  | nil => simp [aremove]
  | cons hd tl ih =>
    by_cases h : hd.1 = k
    · rw [aremove, if_pos h, akeys_cons]
      exact (List.Sublist.refl _).cons _
    · rw [aremove, if_neg h]
      show (akeys (hd :: (aremove k tl).2)).Sublist (akeys (hd :: tl))
      rw [akeys_cons, akeys_cons]
      exact ih.cons₂ _

theorem akeys_aremove_nodup (k : κ) (l : List (κ × α))
    (hnd : (akeys l).Nodup) : (akeys (aremove k l).2).Nodup :=
  hnd.sublist (akeys_aremove_sublist k l)

end AList

/-! ## ProofSet and Proof -/

/-- `Proof` (spec §3): a pair of signer identity and signature over an
implicit payload. -/
structure Proof where
  pub_id : PublicId
  sig : Signature
deriving DecidableEq, Repr

/-- Modelled from the spec: `ProofSet` lives in `chain/proof.rs`, which is
not among the provided sources (only its callers and the accumulator tests
are).  Per spec §3 it is "a mapping from signer `PublicId` to `Signature`
with unique keys"; the accumulator tests construct it as
`ProofSet { sigs: ... }`.  Its `add_proof` records a proof once per signer
and reports whether the signer was new (spec §4.1: "the proof is recorded
exactly once per `signer_id`; second contributions by the same signer are
rejected as replacements"), and `contains_id` tests whether a signer has
contributed. -/
structure ProofSet where
  sigs : List (PublicId × Signature)
deriving DecidableEq, Repr

/-- `ProofSet::add_proof`: insert the signer's signature, returning `true`
iff the signer was not already present (the newer signature is retained
either way). -/
def ProofSet.add_proof (self : ProofSet) (proof : Proof) : Bool × ProofSet :=
  let r := ainsert proof.pub_id proof.sig self.sigs
  (r.1.isNone, ⟨r.2⟩)

/-- `ProofSet::contains_id`. -/
def ProofSet.contains_id (self : ProofSet) (id : PublicId) : Bool :=
  decide (id ∈ akeys self.sigs)

/-! ## AccumulatingProof -/

/-- `AccumulatingProof` from `chain/chain_accumulator.rs`: the consensus
proofs plus the threshold signature shares collected for one event. -/
structure AccumulatingProof where
  parsec_proofs : ProofSet
  sig_shares : List (PublicId × SectionInfoSigPayload)
deriving DecidableEq, Repr

/-- `AccumulatingProof::default()`. -/
def AccumulatingProof.default : AccumulatingProof := ⟨⟨[]⟩, []⟩

/-- `AccumulatingProof::from_proof_set`. -/
def AccumulatingProof.from_proof_set (parsec_proofs : ProofSet) : AccumulatingProof :=
  ⟨parsec_proofs, []⟩

/-- `AccumulatingProof::add_proof`: returns `false` if the share or the
proof was replaced (source doc: "Return false if share or proof is
replaced"); the replacing values are retained in either case. -/
def AccumulatingProof.add_proof (self : AccumulatingProof) (proof : Proof)
    (info_sig : Option SectionInfoSigPayload) : Bool × AccumulatingProof :=
  match info_sig with
  | none =>
    let p := self.parsec_proofs.add_proof proof
    (p.1, ⟨p.2, self.sig_shares⟩)
  | some share =>
    let s := ainsert proof.pub_id share self.sig_shares
    let p := self.parsec_proofs.add_proof proof
    (s.1.isNone && p.1, ⟨p.2, s.2⟩)

/-- `AccumulatingProof::contains_id`. -/
def AccumulatingProof.contains_id (self : AccumulatingProof) (id : PublicId) : Bool :=
  self.parsec_proofs.contains_id id

/-- `AccumulatingProof::into_sig_shares`. -/
def AccumulatingProof.into_sig_shares (self : AccumulatingProof) :
    List (PublicId × SectionInfoSigPayload) :=
  self.sig_shares

/-! ## ChainAccumulator -/

/-- `InsertError` from `chain/chain_accumulator.rs`. -/
inductive InsertError where
  | AlreadyComplete
  | ReplacedAlreadyInserted
deriving DecidableEq, Repr

/-- `RemainingEvents` from `chain/chain_accumulator.rs`: the outcome of a
prefix change.  The source collects `cached_events` into a `BTreeSet`;
here it is the list of reconstructed events in pending order (pending keys
are unique in every reachable state, so no deduplication occurs). -/
structure RemainingEvents where
  cached_events : List NetworkEvent
  completed_events : List AccumulatingEvent
deriving DecidableEq, Repr

/-- `ChainAccumulator` from `chain/chain_accumulator.rs`: pending events
with their proofs so far, plus the events already handled. -/
structure ChainAccumulator where
  chain_accumulator : List (AccumulatingEvent × AccumulatingProof)
  completed_events : List AccumulatingEvent
deriving DecidableEq, Repr

/-- `ChainAccumulator::default()`. -/
def ChainAccumulator.empty : ChainAccumulator := ⟨[], []⟩

/-- `ChainAccumulator::insert_with_proof_set`. -/
def ChainAccumulator.insert_with_proof_set (self : ChainAccumulator)
    (event : AccumulatingEvent) (proof_set : ProofSet) :
    Except InsertError Unit × ChainAccumulator :=
  if event ∈ self.completed_events then
    (.error .AlreadyComplete, self)
  else
    let proof := AccumulatingProof.from_proof_set proof_set
    let r := ainsert event proof self.chain_accumulator
    let self' := { self with chain_accumulator := r.2 }
    if r.1.isSome then
      (.error .ReplacedAlreadyInserted, self')
    else
      (.ok (), self')

/-- `ChainAccumulator::add_proof`.  The source goes through
`entry(event).or_insert_with(AccumulatingProof::default)` and then mutates
the entry in place; this is expressed as: read the current entry (or the
default), update it with `AccumulatingProof::add_proof`, and store it
back. -/
def ChainAccumulator.add_proof (self : ChainAccumulator)
    (event : AccumulatingEvent) (proof : Proof)
    (signature : Option SectionInfoSigPayload) :
    Except InsertError Unit × ChainAccumulator :=
  if event ∈ self.completed_events then
    (.error .AlreadyComplete, self)
  else
    let current := (alookup event self.chain_accumulator).getD AccumulatingProof.default
    let r := current.add_proof proof signature
    let self' :=
      { self with chain_accumulator := (ainsert event r.2 self.chain_accumulator).2 }
    if r.1 then (.ok (), self') else (.error .ReplacedAlreadyInserted, self')

/-- `ChainAccumulator::poll_event`: atomic removal-and-complete. -/
def ChainAccumulator.poll_event (self : ChainAccumulator)
    (event : AccumulatingEvent) :
    Option (AccumulatingEvent × AccumulatingProof) × ChainAccumulator :=
  let r := aremove event self.chain_accumulator
  match r.1 with
  | none => (none, self)
  | some proofs =>
    let s := sinsert event self.completed_events
    (some (event, proofs),
      { chain_accumulator := r.2, completed_events := s.2 })

/-- `ChainAccumulator::incomplete_events`. -/
def ChainAccumulator.incomplete_events (self : ChainAccumulator) :
    List (AccumulatingEvent × AccumulatingProof) :=
  self.chain_accumulator

/-- `ChainAccumulator::reset_accumulator`: drain both sets; reconstruct a
`NetworkEvent` for every pending event we had voted in, preserving our own
signature share (`into_sig_shares().remove(our_id)` returns exactly our
stored share, if any). -/
def ChainAccumulator.reset_accumulator (self : ChainAccumulator)
    (our_id : PublicId) : RemainingEvents × ChainAccumulator :=
  let cached :=
    (self.chain_accumulator.filter fun ep => ep.2.contains_id our_id).map
      fun ep =>
        ep.1.into_network_event_with ((aremove our_id ep.2.into_sig_shares).1)
  ({ cached_events := cached, completed_events := self.completed_events },
    ChainAccumulator.empty)

/-! ## Traces of accumulator operations -/

/-- One call of the `ChainAccumulator` public interface. -/
inductive AccOp where
  | insertOp (e : AccumulatingEvent) (ps : ProofSet)
  | addOp (e : AccumulatingEvent) (pr : Proof) (sig : Option SectionInfoSigPayload)
  | pollOp (e : AccumulatingEvent)
  | resetOp (u : PublicId)
deriving DecidableEq, Repr

/-- Whether an operation is a `reset_accumulator` call. -/
def AccOp.isReset : AccOp → Bool
  | .resetOp _ => true
  | _ => false

/-- Apply one operation, discarding its return value. -/
def ChainAccumulator.step (s : ChainAccumulator) : AccOp → ChainAccumulator
  | .insertOp e ps => (s.insert_with_proof_set e ps).2
  | .addOp e pr sig => (s.add_proof e pr sig).2
  | .pollOp e => (s.poll_event e).2
  | .resetOp u => (s.reset_accumulator u).2

/-- The state reached from the empty accumulator by a sequence of calls. -/
def runAcc (ops : List AccOp) : ChainAccumulator :=
  ops.foldl ChainAccumulator.step ChainAccumulator.empty

/-- The key invariant on a single `AccumulatingProof` (spec §3): every key
of `sig_shares` also appears as a signer in `parsec_proofs`. -/
def proofKeyInv (p : AccumulatingProof) : Prop :=
  ∀ id ∈ akeys p.sig_shares, id ∈ akeys p.parsec_proofs.sigs

instance (p : AccumulatingProof) : Decidable (proofKeyInv p) := by
  unfold proofKeyInv; infer_instance

/-- Structural well-formedness plus the spec's invariants, maintained by
every reachable accumulator state: unique pending keys, unique completed
events, pending/completed disjointness, and the
`sig_shares ⊆ parsec_proofs` key invariant for every stored proof. -/
def ChainAccumulator.Inv (s : ChainAccumulator) : Prop :=
  (akeys s.chain_accumulator).Nodup ∧
  s.completed_events.Nodup ∧
  (∀ e ∈ s.completed_events, alookup e s.chain_accumulator = none) ∧
  (∀ e p, alookup e s.chain_accumulator = some p → proofKeyInv p)

/-! ### Small auxiliary lemmas -/

theorem sinsert_mem_self {κ : Type} [DecidableEq κ] (k : κ) (s : List κ) :
    k ∈ (sinsert k s).2 := by
  by_cases h : k ∈ s <;> simp [sinsert, h]

theorem sinsert_mem_of_mem {κ : Type} [DecidableEq κ] (k k' : κ) (s : List κ)
    (h : k' ∈ s) : k' ∈ (sinsert k s).2 := by
  by_cases hk : k ∈ s <;> simp [sinsert, hk, h]

theorem sinsert_mem_iff {κ : Type} [DecidableEq κ] (k k' : κ) (s : List κ) :
    k' ∈ (sinsert k s).2 ↔ k' ∈ s ∨ k' = k := by
  by_cases hk : k ∈ s
  · simp [sinsert, hk]
    intro he
    exact he ▸ hk
  · simp [sinsert, hk]

theorem sinsert_nodup {κ : Type} [DecidableEq κ] (k : κ) (s : List κ)
    (hnd : s.Nodup) : ((sinsert k s).2).Nodup := by
  by_cases h : k ∈ s
  · simpa [sinsert, h] using hnd
  · rw [sinsert, if_neg h, List.nodup_append]
    exact ⟨hnd, List.nodup_singleton k, by simp [List.disjoint_right, h]⟩

theorem alookup_eq_some_iff_mem {κ α : Type} [DecidableEq κ]
    (k : κ) (v : α) (l : List (κ × α)) (hnd : (akeys l).Nodup) :
    alookup k l = some v ↔ (k, v) ∈ l := by
  induction l with
  | nil => simp [alookup]
  | cons hd tl ih =>
    rw [akeys_cons, List.nodup_cons] at hnd
    by_cases h : hd.1 = k
    · subst h
      rw [alookup, if_pos rfl]
      simp only [List.mem_cons]
      constructor
      · rintro hv
        left
        obtain ⟨a, b⟩ := hd
        simp at hv ⊢
        exact hv.symm
      · rintro (heq | hmem)
        · rw [← heq]
        · exact absurd (List.mem_map_of_mem Prod.fst hmem) hnd.1
    · have hne : (hd.1, v) ≠ hd → True := fun _ => trivial
      rw [alookup, if_neg h]
      rw [ih hnd.2]
      simp only [List.mem_cons]
      constructor
      · exact fun hm => Or.inr hm
      · rintro (heq | hmem)
        · exact absurd (congrArg Prod.fst heq).symm h
        · exact hmem

theorem nodup_map_of_akeys_nodup {κ α β : Type} [DecidableEq κ]
    (f : κ × α → β) (hf : ∀ a b, f a = f b → a.1 = b.1)
    (l : List (κ × α)) (hnd : (akeys l).Nodup) : (l.map f).Nodup := by
  induction l with
  | nil => simp
  | cons hd tl ih =>
    rw [akeys_cons, List.nodup_cons] at hnd
    rw [List.map_cons, List.nodup_cons]
    refine ⟨?_, ih hnd.2⟩
    intro hmem
    obtain ⟨x, hx, hfx⟩ := List.mem_map.1 hmem
    exact hnd.1 (hf x hd hfx ▸ List.mem_map_of_mem Prod.fst hx)

theorem akeys_filter_sublist {κ α : Type} [DecidableEq κ]
    (p : κ × α → Bool) (l : List (κ × α)) :
    (akeys (l.filter p)).Sublist (akeys l) :=
  (List.filter_sublist l).map Prod.fst

/-! ### Characterizations of the individual operations -/

theorem poll_event_fst_isSome (s : ChainAccumulator) (e : AccumulatingEvent) :
    (s.poll_event e).1.isSome = (alookup e s.chain_accumulator).isSome := by
  rw [ChainAccumulator.poll_event]
  rw [show (aremove e s.chain_accumulator).1 = alookup e s.chain_accumulator from
    aremove_fst_eq_alookup e s.chain_accumulator]
  cases alookup e s.chain_accumulator <;> simp

theorem poll_event_none_of_lookup_none (s : ChainAccumulator)
    (e : AccumulatingEvent) (h : alookup e s.chain_accumulator = none) :
    (s.poll_event e).1 = none ∧ (s.poll_event e).2 = s := by
  rw [ChainAccumulator.poll_event]
  rw [show (aremove e s.chain_accumulator).1 = alookup e s.chain_accumulator from
    aremove_fst_eq_alookup e s.chain_accumulator, h]
  exact ⟨rfl, rfl⟩

theorem poll_event_some_completed (s : ChainAccumulator) (e : AccumulatingEvent)
    (h : (s.poll_event e).1.isSome) :
    e ∈ (s.poll_event e).2.completed_events := by
  rw [ChainAccumulator.poll_event] at h ⊢
  rcases hr : (aremove e s.chain_accumulator).1 with _ | proofs
  · rw [hr] at h
    simp at h
  · exact sinsert_mem_self e s.completed_events

theorem step_completed_mono (s : ChainAccumulator) (op : AccOp)
    (hnr : op.isReset = false) (e : AccumulatingEvent)
    (h : e ∈ s.completed_events) : e ∈ (s.step op).completed_events := by
  cases op with
  | insertOp e' ps =>
    rw [ChainAccumulator.step, ChainAccumulator.insert_with_proof_set]
    by_cases hc : e' ∈ s.completed_events
    · simpa [hc] using h
    · by_cases hs : (ainsert e' (AccumulatingProof.from_proof_set ps) s.chain_accumulator).1.isSome
      · simpa [hc, hs] using h
      · simpa [hc, hs] using h
  | addOp e' pr sig =>
    rw [ChainAccumulator.step, ChainAccumulator.add_proof]
    by_cases hc : e' ∈ s.completed_events
    · simpa [hc] using h
    · by_cases hs :
        (((alookup e' s.chain_accumulator).getD AccumulatingProof.default).add_proof pr sig).1
      · simpa [hc, hs] using h
      · simpa [hc, hs] using h
  | pollOp e' =>
    rw [ChainAccumulator.step, ChainAccumulator.poll_event]
    rcases hr : (aremove e' s.chain_accumulator).1 with _ | proofs
    · exact h
    · exact sinsert_mem_of_mem e' e s.completed_events h
  | resetOp u => simp [AccOp.isReset] at hnr

/-! ### Preservation of the invariant -/

theorem mem_akeys_ainsert_iff {κ α : Type} [DecidableEq κ]
    (k k' : κ) (v : α) (l : List (κ × α)) :
    k' ∈ akeys (ainsert k v l).2 ↔ k' ∈ akeys l ∨ k' = k := by
  rw [akeys_ainsert]
  by_cases hm : k ∈ akeys l
  · rw [if_pos hm]
    constructor
    · exact Or.inl
    · rintro (h | rfl)
      · exact h
      · exact hm
  · rw [if_neg hm]
    simp

theorem proofKeyInv_add_proof (p : AccumulatingProof) (pr : Proof)
    (sig : Option SectionInfoSigPayload) (h : proofKeyInv p) :
    proofKeyInv (p.add_proof pr sig).2 := by
  cases sig with
  | none =>
    intro id hid
    rw [AccumulatingProof.add_proof] at hid ⊢
    simp only [ProofSet.add_proof] at hid ⊢
    exact (mem_akeys_ainsert_iff pr.pub_id id pr.sig p.parsec_proofs.sigs).2
      (Or.inl (h id hid))
  | some share =>
    intro id hid
    rw [AccumulatingProof.add_proof] at hid ⊢
    simp only [ProofSet.add_proof] at hid ⊢
    rcases (mem_akeys_ainsert_iff pr.pub_id id share p.sig_shares).1 hid with hold | rfl
    · exact (mem_akeys_ainsert_iff pr.pub_id id pr.sig p.parsec_proofs.sigs).2
        (Or.inl (h id hold))
    · exact (mem_akeys_ainsert_iff pr.pub_id pr.pub_id pr.sig p.parsec_proofs.sigs).2
        (Or.inr rfl)

theorem proofKeyInv_default : proofKeyInv AccumulatingProof.default := by
  intro id hid
  simp [AccumulatingProof.default] at hid

theorem proofKeyInv_from_proof_set (ps : ProofSet) :
    proofKeyInv (AccumulatingProof.from_proof_set ps) := by
  intro id hid
  simp [AccumulatingProof.from_proof_set] at hid

theorem insert_with_proof_set_inv (s : ChainAccumulator)
    (e : AccumulatingEvent) (ps : ProofSet) (hinv : s.Inv) :
    (s.insert_with_proof_set e ps).2.Inv := by
  obtain ⟨hnd, hcnd, hdisj, hent⟩ := hinv
  rw [ChainAccumulator.insert_with_proof_set]
  by_cases hc : e ∈ s.completed_events
  · rw [if_pos hc]
    exact ⟨hnd, hcnd, hdisj, hent⟩
  · rw [if_neg hc]
    have hgoal :
        (ChainAccumulator.mk
          (ainsert e (AccumulatingProof.from_proof_set ps) s.chain_accumulator).2
          s.completed_events).Inv := by
      refine ⟨akeys_ainsert_nodup _ _ _ hnd, hcnd, ?_, ?_⟩
      · intro e' he'
        have hne : e ≠ e' := fun hh => hc (hh ▸ he')
        rw [alookup_ainsert_ne e e' _ _ hne]
        exact hdisj e' he'
      · intro e' p hp
        by_cases he : e' = e
        · subst he
          rw [alookup_ainsert_self] at hp
          cases hp
          exact proofKeyInv_from_proof_set ps
        · rw [alookup_ainsert_ne e e' _ _ (fun hh => he hh.symm)] at hp
          exact hent e' p hp
    by_cases hs : (ainsert e (AccumulatingProof.from_proof_set ps) s.chain_accumulator).1.isSome
    · simpa [hs] using hgoal
    · simpa [hs] using hgoal

theorem add_proof_inv (s : ChainAccumulator) (e : AccumulatingEvent)
    (pr : Proof) (sig : Option SectionInfoSigPayload) (hinv : s.Inv) :
    (s.add_proof e pr sig).2.Inv := by
  obtain ⟨hnd, hcnd, hdisj, hent⟩ := hinv
  rw [ChainAccumulator.add_proof]
  by_cases hc : e ∈ s.completed_events
  · rw [if_pos hc]
    exact ⟨hnd, hcnd, hdisj, hent⟩
  · rw [if_neg hc]
    have hcur : proofKeyInv
        ((alookup e s.chain_accumulator).getD AccumulatingProof.default) := by
      cases hl : alookup e s.chain_accumulator with
      | none => simpa [hl] using proofKeyInv_default
      | some p => simpa [hl] using hent e p hl
    have hgoal :
        (ChainAccumulator.mk
          (ainsert e
            (((alookup e s.chain_accumulator).getD
              AccumulatingProof.default).add_proof pr sig).2
            s.chain_accumulator).2
          s.completed_events).Inv := by
      refine ⟨akeys_ainsert_nodup _ _ _ hnd, hcnd, ?_, ?_⟩
      · intro e' he'
        have hne : e ≠ e' := fun hh => hc (hh ▸ he')
        rw [alookup_ainsert_ne e e' _ _ hne]
        exact hdisj e' he'
      · intro e' p hp
        by_cases he : e' = e
        · subst he
          rw [alookup_ainsert_self] at hp
          cases hp
          exact proofKeyInv_add_proof _ pr sig hcur
        · rw [alookup_ainsert_ne e e' _ _ (fun hh => he hh.symm)] at hp
          exact hent e' p hp
    by_cases hb :
      (((alookup e s.chain_accumulator).getD AccumulatingProof.default).add_proof pr sig).1
    · simpa [hb] using hgoal
    · simpa [hb] using hgoal

theorem poll_event_inv (s : ChainAccumulator) (e : AccumulatingEvent)
    (hinv : s.Inv) : (s.poll_event e).2.Inv := by
  obtain ⟨hnd, hcnd, hdisj, hent⟩ := hinv
  rw [ChainAccumulator.poll_event]
  rcases hr : (aremove e s.chain_accumulator).1 with _ | proofs
  · exact ⟨hnd, hcnd, hdisj, hent⟩
  · refine ⟨akeys_aremove_nodup _ _ hnd, sinsert_nodup _ _ hcnd, ?_, ?_⟩
    · intro e' he'
      rcases (sinsert_mem_iff e e' s.completed_events).1 he' with hold | rfl
      · by_cases hee : e' = e
        · subst hee
          exact alookup_aremove_self e' s.chain_accumulator hnd
        · rw [alookup_aremove_ne e e' _ (fun hh => hee hh.symm)]
          exact hdisj e' hold
      · exact alookup_aremove_self e' s.chain_accumulator hnd
    · intro e' p hp
      by_cases hee : e' = e
      · subst hee
        rw [alookup_aremove_self e' s.chain_accumulator hnd] at hp
        cases hp
      · rw [alookup_aremove_ne e e' _ (fun hh => hee hh.symm)] at hp
        exact hent e' p hp

theorem empty_inv : ChainAccumulator.empty.Inv := by
  refine ⟨?_, ?_, ?_, ?_⟩ <;> simp [ChainAccumulator.empty, alookup]

theorem reset_accumulator_inv (s : ChainAccumulator) (u : PublicId) :
    (s.reset_accumulator u).2.Inv := by
  rw [ChainAccumulator.reset_accumulator]
  exact empty_inv

theorem step_inv (s : ChainAccumulator) (op : AccOp) (hinv : s.Inv) :
    (s.step op).Inv := by
  cases op with
  | insertOp e ps => exact insert_with_proof_set_inv s e ps hinv
  | addOp e pr sig => exact add_proof_inv s e pr sig hinv
  | pollOp e => exact poll_event_inv s e hinv
  | resetOp u => exact reset_accumulator_inv s u

theorem foldl_step_inv (ops : List AccOp) :
    ∀ s : ChainAccumulator, s.Inv → (ops.foldl ChainAccumulator.step s).Inv := by
  induction ops with
  | nil => exact fun s h => h
  | cons op rest ih =>
    intro s h
    exact ih (s.step op) (step_inv s op h)

theorem runAcc_inv (ops : List AccOp) : (runAcc ops).Inv :=
  foldl_step_inv ops ChainAccumulator.empty empty_inv

/-! ### Runs and prefixes -/

theorem runAcc_take_succ (ops : List AccOp) (n : Nat) :
    runAcc (ops.take (n + 1)) =
      match ops[n]? with
      | some op => (runAcc (ops.take n)).step op
      | none => runAcc (ops.take n) := by
  rw [runAcc, List.take_succ, List.foldl_append]
  cases h : ops[n]? <;> simp [h, runAcc]

theorem runAcc_completed_mono (ops : List AccOp)
    (hnr : ∀ op ∈ ops, op.isReset = false) (e : AccumulatingEvent)
    (i j : Nat) (hij : i ≤ j)
    (hmem : e ∈ (runAcc (ops.take i)).completed_events) :
    e ∈ (runAcc (ops.take j)).completed_events := by
  induction j with
  | zero =>
    have h0 : i = 0 := Nat.le_zero.1 hij
    subst h0
    exact hmem
  | succ j ih =>
    by_cases hij' : i ≤ j
    · have hj := ih hij'
      rw [runAcc_take_succ]
      cases hop : ops[j]? with
      | none => exact hj
      | some op =>
        exact step_completed_mono _ op (hnr op (List.getElem?_mem hop)) e hj
    · have hi : i = j + 1 := by omega
      subst hi
      exact hmem

/-! ## Claim theorems: accumulator invariants -/

/-- C1.  At-most-once delivery: starting from the empty `ChainAccumulator`,
for every event `e` and every sequence of `insert_with_proof_set`,
`add_proof` and `poll_event` calls, once some `poll_event e` call in the
sequence returns `Some`, the state reached by any later position in the
sequence answers `poll_event e` with `None`; hence `poll_event e` returns
`Some` at most once in the sequence. -/
theorem at_most_once_delivery (ops : List AccOp) (e : AccumulatingEvent)
    (i j : Nat)
    (hnr : ∀ op ∈ ops, op.isReset = false)
    (hij : i < j)
    (hop : ops[i]? = some (AccOp.pollOp e))
    (hsome : ((runAcc (ops.take i)).poll_event e).1.isSome) :
    ((runAcc (ops.take j)).poll_event e).1 = none := by
  have h1 : runAcc (ops.take (i + 1)) = (runAcc (ops.take i)).step (.pollOp e) := by
    rw [runAcc_take_succ, hop]
  have h2 : e ∈ (runAcc (ops.take (i + 1))).completed_events := by
    rw [h1]
    exact poll_event_some_completed _ e hsome
  have h3 : e ∈ (runAcc (ops.take j)).completed_events :=
    runAcc_completed_mono ops hnr e (i + 1) j hij h2
  have h4 := runAcc_inv (ops.take j)
  exact (poll_event_none_of_lookup_none _ e (h4.2.2.1 e h3)).1

/-- Closed witness for C1: a concrete three-call trace in which the second
call polls `OurMerge` successfully and the third poll returns `None`. -/
theorem at_most_once_delivery_witness :
    ((runAcc (([AccOp.addOp .OurMerge ⟨0, 0⟩ none, .pollOp .OurMerge,
        .pollOp .OurMerge] : List AccOp).take 2)).poll_event .OurMerge).1 = none :=
  at_most_once_delivery
    [AccOp.addOp .OurMerge ⟨0, 0⟩ none, .pollOp .OurMerge, .pollOp .OurMerge]
    .OurMerge 1 2 (by decide) (by decide) (by decide) (by decide)

/-- C2.  Disjointness: in every state reachable from the empty accumulator
by any sequence of `insert_with_proof_set`, `add_proof`, `poll_event` and
`reset_accumulator` calls, every completed event is absent from the
pending map; and across any reset-free sequence, an event that is
completed at one position stays completed and stays out of the pending map
at every later position. -/
theorem pending_completed_disjoint :
    (∀ ops : List AccOp, ∀ e ∈ (runAcc ops).completed_events,
      alookup e (runAcc ops).chain_accumulator = none) ∧
    (∀ ops : List AccOp, (∀ op ∈ ops, op.isReset = false) →
      ∀ i j : Nat, i ≤ j → ∀ e,
        e ∈ (runAcc (ops.take i)).completed_events →
        e ∈ (runAcc (ops.take j)).completed_events ∧
        alookup e (runAcc (ops.take j)).chain_accumulator = none) := by
  constructor
  · intro ops e he
    exact (runAcc_inv ops).2.2.1 e he
  · intro ops hnr i j hij e he
    have hm := runAcc_completed_mono ops hnr e i j hij he
    exact ⟨hm, (runAcc_inv (ops.take j)).2.2.1 e hm⟩

/-- Closed witness for C2 at a concrete trace: after adding one proof for
`OurMerge` and polling it, `OurMerge` is completed and absent from the
pending map, both in the full run and at the later prefix position. -/
theorem pending_completed_disjoint_witness :
    AccumulatingEvent.OurMerge ∈
      (runAcc [AccOp.addOp .OurMerge ⟨0, 0⟩ none,
        .pollOp .OurMerge]).completed_events ∧
    alookup AccumulatingEvent.OurMerge
      (runAcc [AccOp.addOp .OurMerge ⟨0, 0⟩ none,
        .pollOp .OurMerge]).chain_accumulator = none ∧
    alookup AccumulatingEvent.OurMerge
      (runAcc (([AccOp.addOp .OurMerge ⟨0, 0⟩ none,
        .pollOp .OurMerge] : List AccOp).take 2)).chain_accumulator = none :=
  ⟨by decide,
    pending_completed_disjoint.1
      [AccOp.addOp .OurMerge ⟨0, 0⟩ none, .pollOp .OurMerge] .OurMerge (by decide),
    (pending_completed_disjoint.2
      [AccOp.addOp .OurMerge ⟨0, 0⟩ none, .pollOp .OurMerge] (by decide)
      2 2 (by decide) .OurMerge (by decide)).2⟩

/-- C9.  AccumulatingProof key invariant: `from_proof_set` establishes it,
`AccumulatingProof::add_proof` preserves it, and every proof stored in any
reachable `ChainAccumulator` state satisfies it: every key of `sig_shares`
appears as a signer in `parsec_proofs`. -/
theorem accumulating_proof_key_invariant :
    (∀ ps : ProofSet, proofKeyInv (AccumulatingProof.from_proof_set ps)) ∧
    (∀ (p : AccumulatingProof) (pr : Proof) (sig : Option SectionInfoSigPayload),
      proofKeyInv p → proofKeyInv (p.add_proof pr sig).2) ∧
    (∀ (ops : List AccOp) (e : AccumulatingEvent) (p : AccumulatingProof),
      alookup e (runAcc ops).chain_accumulator = some p → proofKeyInv p) :=
  ⟨proofKeyInv_from_proof_set,
    proofKeyInv_add_proof,
    fun ops e p hp => (runAcc_inv ops).2.2.2 e p hp⟩

/-- Closed witness for C9: a concrete proof with one share satisfies the
invariant after `add_proof`, and the proof stored by a concrete trace
satisfies it. -/
theorem accumulating_proof_key_invariant_witness :
    proofKeyInv ((AccumulatingProof.mk ⟨[(5, 9)]⟩ [(5, ⟨5, 9⟩)]).add_proof
      ⟨7, 3⟩ (some ⟨7, 3⟩)).2 ∧
    proofKeyInv (AccumulatingProof.from_proof_set ⟨[(4, 4)]⟩) :=
  ⟨accumulating_proof_key_invariant.2.1 (AccumulatingProof.mk ⟨[(5, 9)]⟩ [(5, ⟨5, 9⟩)])
      ⟨7, 3⟩ (some ⟨7, 3⟩) (by decide),
    accumulating_proof_key_invariant.1 ⟨[(4, 4)]⟩⟩

/-- C10.  NetworkEvent round-trip: decomposing a `NetworkEvent` with
`from_network_event` and rebuilding it with `into_network_event_with`
yields the original; conversely `from_network_event` of
`into_network_event_with e s` is `(e, s)`; and `into_network_event` is
`into_network_event_with` at `none`. -/
theorem network_event_round_trip :
    (∀ n : NetworkEvent,
      (AccumulatingEvent.from_network_event n).1.into_network_event_with
        (AccumulatingEvent.from_network_event n).2 = n) ∧
    (∀ (e : AccumulatingEvent) (s : Option SectionInfoSigPayload),
      AccumulatingEvent.from_network_event (e.into_network_event_with s) = (e, s)) ∧
    (∀ e : AccumulatingEvent, e.into_network_event = e.into_network_event_with none) :=
  ⟨fun _ => rfl, fun _ _ => rfl, fun _ => rfl⟩

/-! ## Claim theorems: operation contracts -/

/-- C5.  `insert_with_proof_set` contract: when the event is completed it
fails with `AlreadyComplete` and leaves the state unchanged; otherwise it
fails with `ReplacedAlreadyInserted` exactly when an entry for the event
already existed in the pending map, yet in either sub-case the pending
entry afterwards is the incoming one, whose threshold-share map is
empty. -/
theorem insert_with_proof_set_contract (s : ChainAccumulator)
    (e : AccumulatingEvent) (ps : ProofSet) :
    (e ∈ s.completed_events →
      (s.insert_with_proof_set e ps).1 = .error .AlreadyComplete ∧
      (s.insert_with_proof_set e ps).2 = s) ∧
    (e ∉ s.completed_events →
      ((s.insert_with_proof_set e ps).1 =
        if e ∈ akeys s.chain_accumulator then .error .ReplacedAlreadyInserted
        else .ok ()) ∧
      alookup e (s.insert_with_proof_set e ps).2.chain_accumulator =
        some (AccumulatingProof.from_proof_set ps) ∧
      (AccumulatingProof.from_proof_set ps).sig_shares = [] ∧
      (s.insert_with_proof_set e ps).2.completed_events = s.completed_events) := by
  constructor
  · intro hc
    rw [ChainAccumulator.insert_with_proof_set, if_pos hc]
    exact ⟨rfl, rfl⟩
  · intro hc
    rw [ChainAccumulator.insert_with_proof_set, if_neg hc]
    have hfst : (ainsert e (AccumulatingProof.from_proof_set ps)
        s.chain_accumulator).1 = alookup e s.chain_accumulator :=
      ainsert_fst_eq_alookup e _ s.chain_accumulator
    by_cases hm : e ∈ akeys s.chain_accumulator
    · have hlk : alookup e s.chain_accumulator ≠ none :=
        (mem_akeys_iff_alookup e s.chain_accumulator).1 hm
      have hs : (ainsert e (AccumulatingProof.from_proof_set ps)
          s.chain_accumulator).1.isSome := by
        rw [hfst]
        exact Option.isSome_iff_ne_none.2 hlk
      rw [if_pos hs, if_pos hm]
      exact ⟨rfl, alookup_ainsert_self e _ s.chain_accumulator, rfl, rfl⟩
    · have hlk : alookup e s.chain_accumulator = none := by
        rcases hl : alookup e s.chain_accumulator with _ | v
        · rfl
        · exact absurd ((mem_akeys_iff_alookup e s.chain_accumulator).2
            (by simp [hl])) hm
      have hs : ¬ (ainsert e (AccumulatingProof.from_proof_set ps)
          s.chain_accumulator).1.isSome := by
        rw [hfst, hlk]
        simp
      rw [if_neg hs, if_neg hm]
      exact ⟨rfl, alookup_ainsert_self e _ s.chain_accumulator, rfl, rfl⟩

/-- Closed witness for C5: concrete states exercising both the
`AlreadyComplete` branch and the overwriting `ReplacedAlreadyInserted`
branch. -/
theorem insert_with_proof_set_contract_witness :
    ((ChainAccumulator.mk [] [.OurMerge]).insert_with_proof_set .OurMerge
      ⟨[(1, 2)]⟩).1 = .error .AlreadyComplete ∧
    ((ChainAccumulator.mk [(.OurMerge, ⟨⟨[(9, 9)]⟩, []⟩)] []).insert_with_proof_set
      .OurMerge ⟨[(1, 2)]⟩).1 = .error .ReplacedAlreadyInserted ∧
    alookup AccumulatingEvent.OurMerge
      ((ChainAccumulator.mk [(.OurMerge, ⟨⟨[(9, 9)]⟩, []⟩)] []).insert_with_proof_set
        .OurMerge ⟨[(1, 2)]⟩).2.chain_accumulator =
      some (AccumulatingProof.from_proof_set ⟨[(1, 2)]⟩) :=
  ⟨((insert_with_proof_set_contract (ChainAccumulator.mk [] [.OurMerge])
      .OurMerge ⟨[(1, 2)]⟩).1 (by decide)).1,
    by
      have h := (insert_with_proof_set_contract
        (ChainAccumulator.mk [(.OurMerge, ⟨⟨[(9, 9)]⟩, []⟩)] [])
        .OurMerge ⟨[(1, 2)]⟩).2 (by decide)
      exact h.1.trans (if_pos (by decide)),
    ((insert_with_proof_set_contract
      (ChainAccumulator.mk [(.OurMerge, ⟨⟨[(9, 9)]⟩, []⟩)] [])
      .OurMerge ⟨[(1, 2)]⟩).2 (by decide)).2.1⟩

/-- C3.  Reset preserves own votes: for every accumulator state with
well-formed (duplicate-free) pending keys and every identity `u`,
`reset_accumulator u` returns as `cached_events` exactly one reconstructed
`NetworkEvent` per pending entry whose `parsec_proofs` contains `u` — the
event paired with `u`'s own stored signature share, if any — returns the
old completed set, and leaves the accumulator empty. -/
theorem reset_preserves_own_votes (s : ChainAccumulator) (u : PublicId)
    (hnd : (akeys s.chain_accumulator).Nodup) :
    (∀ n : NetworkEvent,
      n ∈ (s.reset_accumulator u).1.cached_events ↔
        ∃ e p, alookup e s.chain_accumulator = some p ∧
          p.contains_id u = true ∧
          n = e.into_network_event_with (alookup u p.sig_shares)) ∧
    (s.reset_accumulator u).1.cached_events.length =
      (s.chain_accumulator.filter fun ep => ep.2.contains_id u).length ∧
    (s.reset_accumulator u).1.cached_events.Nodup ∧
    (s.reset_accumulator u).1.completed_events = s.completed_events ∧
    (s.reset_accumulator u).2 = ChainAccumulator.empty := by
  refine ⟨?_, ?_, ?_, rfl, rfl⟩
  · intro n
    rw [ChainAccumulator.reset_accumulator]
    simp only [List.mem_map, List.mem_filter]
    constructor
    · rintro ⟨ep, ⟨hmem, hcont⟩, rfl⟩
      refine ⟨ep.1, ep.2, ?_, hcont, ?_⟩
      · exact (alookup_eq_some_iff_mem ep.1 ep.2 s.chain_accumulator hnd).2 hmem
      · rw [AccumulatingProof.into_sig_shares,
          aremove_fst_eq_alookup u ep.2.sig_shares]
    · rintro ⟨e, p, hlk, hcont, rfl⟩
      refine ⟨(e, p),
        ⟨(alookup_eq_some_iff_mem e p s.chain_accumulator hnd).1 hlk, hcont⟩, ?_⟩
      rw [AccumulatingProof.into_sig_shares, aremove_fst_eq_alookup u p.sig_shares]
  · rw [ChainAccumulator.reset_accumulator]
    exact List.length_map _ _
  · rw [ChainAccumulator.reset_accumulator]
    refine nodup_map_of_akeys_nodup _ ?_ _
      (hnd.sublist (akeys_filter_sublist _ s.chain_accumulator))
    intro a b hab
    have := congrArg NetworkEvent.payload hab
    simpa [AccumulatingEvent.into_network_event_with] using this

/-- Closed witness for C3 at a concrete state: one pending entry carries
`u = 3`'s proof (and no share), one completed event; after reset the
cached set contains the reconstructed event (with no signature), the
completed set survives, and the accumulator is empty. -/
theorem reset_preserves_own_votes_witness :
    ((ChainAccumulator.mk [(.OurMerge, ⟨⟨[(3, 8)]⟩, []⟩)]
        [.ParsecPrune]).reset_accumulator 3).1.completed_events = [.ParsecPrune] ∧
    NetworkEvent.mk .OurMerge none ∈
      ((ChainAccumulator.mk [(.OurMerge, ⟨⟨[(3, 8)]⟩, []⟩)]
        [.ParsecPrune]).reset_accumulator 3).1.cached_events ∧
    ((ChainAccumulator.mk [(.OurMerge, ⟨⟨[(3, 8)]⟩, []⟩)]
        [.ParsecPrune]).reset_accumulator 3).2 = ChainAccumulator.empty :=
  ⟨(reset_preserves_own_votes
      (ChainAccumulator.mk [(.OurMerge, ⟨⟨[(3, 8)]⟩, []⟩)] [.ParsecPrune]) 3
      (by decide)).2.2.2.1,
    ((reset_preserves_own_votes
      (ChainAccumulator.mk [(.OurMerge, ⟨⟨[(3, 8)]⟩, []⟩)] [.ParsecPrune]) 3
      (by decide)).1 (NetworkEvent.mk .OurMerge none)).2
      ⟨.OurMerge, ⟨⟨[(3, 8)]⟩, []⟩, by decide, by decide, by decide⟩,
    (reset_preserves_own_votes
      (ChainAccumulator.mk [(.OurMerge, ⟨⟨[(3, 8)]⟩, []⟩)] [.ParsecPrune]) 3
      (by decide)).2.2.2.2⟩

/-! ### Helper lemmas for the `add_proof` contract -/

/-- The pending entry the source reads through
`entry(event).or_insert_with(default)`. -/
def currentProof (s : ChainAccumulator) (e : AccumulatingEvent) : AccumulatingProof :=
  (alookup e s.chain_accumulator).getD AccumulatingProof.default

/-- The condition under which `add_proof` reports a replacement, stated
from the spec's words: the signer already had a signature share recorded
(when a share is being attached) or already had a proof recorded in
`parsec_proofs`. -/
def replacedCond (s : ChainAccumulator) (e : AccumulatingEvent) (pr : Proof)
    (sig : Option SectionInfoSigPayload) : Prop :=
  (sig.isSome ∧ pr.pub_id ∈ akeys (currentProof s e).sig_shares) ∨
  pr.pub_id ∈ akeys (currentProof s e).parsec_proofs.sigs

instance (s : ChainAccumulator) (e : AccumulatingEvent) (pr : Proof)
    (sig : Option SectionInfoSigPayload) : Decidable (replacedCond s e pr sig) := by
  unfold replacedCond; infer_instance

theorem AP_add_proof_fst (p : AccumulatingProof) (pr : Proof)
    (sig : Option SectionInfoSigPayload) :
    (p.add_proof pr sig).1 =
      ((match sig with
        | none => true
        | some _ => (alookup pr.pub_id p.sig_shares).isNone) &&
        (alookup pr.pub_id p.parsec_proofs.sigs).isNone) := by
  cases sig with
  | none =>
    simp [AccumulatingProof.add_proof, ProofSet.add_proof, ainsert_fst_eq_alookup]
  | some share =>
    simp [AccumulatingProof.add_proof, ProofSet.add_proof, ainsert_fst_eq_alookup]

theorem AP_add_proof_parsec (p : AccumulatingProof) (pr : Proof)
    (sig : Option SectionInfoSigPayload) :
    (p.add_proof pr sig).2.parsec_proofs.sigs =
      (ainsert pr.pub_id pr.sig p.parsec_proofs.sigs).2 := by
  cases sig <;> rfl

theorem AP_add_proof_fst_false_iff (p : AccumulatingProof) (pr : Proof)
    (sig : Option SectionInfoSigPayload) :
    (p.add_proof pr sig).1 = false ↔
      (sig.isSome ∧ pr.pub_id ∈ akeys p.sig_shares) ∨
      pr.pub_id ∈ akeys p.parsec_proofs.sigs := by
  rw [AP_add_proof_fst]
  cases sig with
  | none =>
    simp only [Option.isSome_none, Bool.false_eq_true, false_and, false_or,
      Bool.true_and]
    rw [Bool.eq_false_iff, Ne, Option.isNone_iff_eq_none,
      mem_akeys_iff_alookup]
  | some share =>
    simp only [Option.isSome_some, true_and]
    rw [Bool.and_eq_false_iff]
    rw [Bool.eq_false_iff, Bool.eq_false_iff, Ne, Ne,
      Option.isNone_iff_eq_none, Option.isNone_iff_eq_none,
      mem_akeys_iff_alookup, mem_akeys_iff_alookup]

theorem add_proof_snd (s : ChainAccumulator) (e : AccumulatingEvent)
    (pr : Proof) (sig : Option SectionInfoSigPayload)
    (hc : e ∉ s.completed_events) :
    (s.add_proof e pr sig).2 =
      { s with chain_accumulator :=
        (ainsert e ((currentProof s e).add_proof pr sig).2
          s.chain_accumulator).2 } := by
  rw [ChainAccumulator.add_proof, if_neg hc]
  by_cases hb : ((currentProof s e).add_proof pr sig).1
  · rw [currentProof] at hb
    rw [if_pos hb]
    rfl
  · rw [currentProof] at hb
    rw [if_neg hb]
    rfl

theorem add_proof_completed_unchanged (s : ChainAccumulator)
    (e : AccumulatingEvent) (pr : Proof) (sig : Option SectionInfoSigPayload) :
    (s.add_proof e pr sig).2.completed_events = s.completed_events := by
  rw [ChainAccumulator.add_proof]
  by_cases hc : e ∈ s.completed_events
  · rw [if_pos hc]
  · rw [if_neg hc]
    by_cases hb :
      (((alookup e s.chain_accumulator).getD AccumulatingProof.default).add_proof
        pr sig).1
    · rw [if_pos hb]
    · rw [if_neg hb]

/-- C4.  `add_proof` error contract: `AlreadyComplete` exactly when the
event is completed; otherwise `ReplacedAlreadyInserted` exactly when the
signer already had a signature share recorded (when a share is attached)
or already had a proof in `parsec_proofs`, and `Ok` in the remaining
cases; and after two successive contributions by the same signer the
stored entry holds the signer's key at most once in `parsec_proofs`
(given the entry's signer keys were duplicate-free to begin with). -/
theorem add_proof_contract (s : ChainAccumulator) (e : AccumulatingEvent)
    (pr : Proof) (sig : Option SectionInfoSigPayload)
    (hnd : (akeys (currentProof s e).parsec_proofs.sigs).Nodup) :
    ((s.add_proof e pr sig).1 = .error .AlreadyComplete ↔
      e ∈ s.completed_events) ∧
    (e ∉ s.completed_events →
      (((s.add_proof e pr sig).1 = .error .ReplacedAlreadyInserted) ↔
        replacedCond s e pr sig) ∧
      (((s.add_proof e pr sig).1 = .ok ()) ↔ ¬ replacedCond s e pr sig)) ∧
    (∀ (sig' : Option SectionInfoSigPayload) (p : AccumulatingProof),
      alookup e ((s.add_proof e pr sig).2.add_proof e pr sig').2.chain_accumulator
        = some p →
      (akeys p.parsec_proofs.sigs).count pr.pub_id ≤ 1) := by
  have hfalse :
      ∀ sg, (((currentProof s e).add_proof pr sg).1 = false ↔
        replacedCond s e pr sg) := by
    intro sg
    rw [AP_add_proof_fst_false_iff, replacedCond]
  refine ⟨?_, ?_, ?_⟩
  · rw [ChainAccumulator.add_proof]
    by_cases hc : e ∈ s.completed_events
    · rw [if_pos hc]
      simp [hc]
    · rw [if_neg hc]
      by_cases hb :
        (((alookup e s.chain_accumulator).getD AccumulatingProof.default).add_proof
          pr sig).1
      · rw [if_pos hb]
        simp [hc]
      · rw [if_neg hb]
        simp [hc]
  · intro hc
    rw [ChainAccumulator.add_proof, if_neg hc]
    by_cases hb :
      (((alookup e s.chain_accumulator).getD AccumulatingProof.default).add_proof
        pr sig).1
    · rw [if_pos hb]
      have hb' : ((currentProof s e).add_proof pr sig).1 = true := hb
      constructor
      · simp only [reduceCtorEq, false_iff]
        intro hcond
        rw [← hfalse sig] at hcond
        rw [hb'] at hcond
        cases hcond
      · simp only [true_iff]
        intro hcond
        rw [← hfalse sig] at hcond
        rw [hb'] at hcond
        cases hcond
    · rw [if_neg hb]
      have hb' : ((currentProof s e).add_proof pr sig).1 = false :=
        Bool.eq_false_iff.2 hb
      constructor
      · simp only [true_iff]
        exact (hfalse sig).1 hb'
      · simp only [reduceCtorEq, false_iff, not_not]
        exact (hfalse sig).1 hb'
  · intro sig' p hp
    by_cases hc : e ∈ s.completed_events
    · have h1 : (s.add_proof e pr sig).2 = s := by
        rw [ChainAccumulator.add_proof, if_pos hc]
      have hc2 : e ∈ (s.add_proof e pr sig).2.completed_events := by
        rw [h1]; exact hc
      have h2 : ((s.add_proof e pr sig).2.add_proof e pr sig').2 =
          (s.add_proof e pr sig).2 := by
        rw [ChainAccumulator.add_proof, if_pos hc2]
      rw [h2, h1] at hp
      rcases hl : alookup e s.chain_accumulator with _ | q
      · rw [hl] at hp
        cases hp
      · rw [hl] at hp
        cases hp
        have hcur : currentProof s e = p := by rw [currentProof, hl]; rfl
        rw [hcur] at hnd
        exact (List.nodup_iff_count_le_one.1 hnd) pr.pub_id
    · have hc2 : e ∉ (s.add_proof e pr sig).2.completed_events := by
        rw [add_proof_completed_unchanged]
        exact hc
      rw [add_proof_snd _ _ _ _ hc2] at hp
      have hlk1 : alookup e (s.add_proof e pr sig).2.chain_accumulator =
          some ((currentProof s e).add_proof pr sig).2 := by
        rw [add_proof_snd _ _ _ _ hc]
        exact alookup_ainsert_self e _ s.chain_accumulator
      have hcur1 : currentProof (s.add_proof e pr sig).2 e =
          ((currentProof s e).add_proof pr sig).2 := by
        rw [currentProof, hlk1]
        rfl
      rw [alookup_ainsert_self] at hp
      cases hp
      rw [hcur1, AP_add_proof_parsec, AP_add_proof_parsec]
      have hnd1 : (akeys (ainsert pr.pub_id pr.sig
          (currentProof s e).parsec_proofs.sigs).2).Nodup :=
        akeys_ainsert_nodup _ _ _ hnd
      have hnd2 := akeys_ainsert_nodup pr.pub_id pr.sig _ hnd1
      exact (List.nodup_iff_count_le_one.1 hnd2) pr.pub_id

/-- Closed witness for C4 at a concrete state: signer 7 already voted for
the event, so a second `add_proof` reports `ReplacedAlreadyInserted`, and
two further contributions keep the signer's key unique. -/
theorem add_proof_contract_witness :
    ((ChainAccumulator.mk [(.OurMerge, ⟨⟨[(7, 1)]⟩, []⟩)] []).add_proof .OurMerge
      ⟨7, 2⟩ none).1 = .error .ReplacedAlreadyInserted ∧
    (akeys (AccumulatingProof.mk ⟨[(7, 2)]⟩ []).parsec_proofs.sigs).count 7 ≤ 1 :=
  ⟨((add_proof_contract (ChainAccumulator.mk [(.OurMerge, ⟨⟨[(7, 1)]⟩, []⟩)] [])
      .OurMerge ⟨7, 2⟩ none (by decide)).2.1 (by decide)).1.2 (by decide),
    (add_proof_contract (ChainAccumulator.mk [(.OurMerge, ⟨⟨[(7, 1)]⟩, []⟩)] [])
      .OurMerge ⟨7, 2⟩ none (by decide)).2.2 none
      (AccumulatingProof.mk ⟨[(7, 2)]⟩ []) (by decide)⟩

/-! ## Lifecycle state machine: bootstrapping and joining states

Identities, crypto and wire payloads are opaque (`Nat`); the outward
link-layer calls the states make (`send_direct_message`,
`disconnect_from`, `bootstrap`) are recorded as a list of `Action`s. -/

/-- An overlay address.  `FullId` is the node's keypair; its public name
is modelled as the identity value itself. -/
abbrev XorName := Nat

/-- A node keypair (opaque here); `name` is the identity value itself. -/
abbrev FullId := Nat

/-- A link-layer connection descriptor, identified by its socket
address. -/
structure ConnectionInfo where
  peer_addr : Nat
deriving DecidableEq, Repr

/-- Modelled from the spec: `PeerMap` (`peer_map.rs`) is not among the
provided sources.  Per the spec it is the set of currently connected
peers; `connect` records a connection, `remove_all` drains every stored
connection info. -/
abbrev PeerMap := List ConnectionInfo

/-- `PeerMap::connect`. -/
def PeerMap.connect (pm : PeerMap) (ci : ConnectionInfo) : PeerMap :=
  if ci ∈ pm then pm else pm ++ [ci]

/-- Modelled from the spec: `Timer` (`timer.rs`) is not among the provided
sources.  Per spec §5 every wait is tied to a monotonically increasing
64-bit token; `schedule` hands out the next token. -/
structure Timer where
  next_token : Nat
deriving DecidableEq, Repr

/-- `Timer::schedule`: returns the scheduled token and the advanced
timer (the duration plays no role in the token algebra). -/
def Timer.schedule (t : Timer) (_duration : Nat) : Nat × Timer :=
  (t.next_token, ⟨t.next_token + 1⟩)

/-- `JOIN_TIMEOUT` (seconds) from `states/joining_peer.rs`. -/
def JOIN_TIMEOUT : Nat := 120

/-- `BOOTSTRAP_TIMEOUT` (seconds) from `states/bootstrapping_peer.rs`. -/
def BOOTSTRAP_TIMEOUT : Nat := 20

/-- `MAX_JOIN_ATTEMPTS` from `states/joining_peer.rs`. -/
def MAX_JOIN_ATTEMPTS : Nat := 3

/-- `GenesisPfxInfo` (opaque here). -/
abbrev GenesisPfxInfo := Nat

/-- `RelocatePayload` (opaque here). -/
abbrev RelocatePayload := Nat

/-- The direct messages the bootstrapping/joining states send. -/
inductive DirectMessage where
  | JoinRequest (payload : Option RelocatePayload)
  | BootstrapRequest (destination : XorName)
deriving DecidableEq, Repr

/-- An outward link-layer call recorded by a state handler. -/
inductive Action where
  | sendDirect (dst : ConnectionInfo) (msg : DirectMessage)
  | disconnectFrom (peer_addr : Nat)
  | bootstrap
deriving DecidableEq, Repr

/-- `Authority` (the source's `routing_table::Authority`), restricted to
the variants the joining state distinguishes: a single node destination
versus a section authority. -/
inductive Authority where
  | NodeAuth (name : XorName)
  | SectionAuth (section_id : Nat)
deriving DecidableEq, Repr

/-- `Authority::is_single`. -/
def Authority.is_single : Authority → Bool
  | .NodeAuth _ => true
  | .SectionAuth _ => false

/-- `Authority::name`. -/
def Authority.name : Authority → XorName
  | .NodeAuth n => n
  | .SectionAuth s => s

/-- The routing-message contents the joining state distinguishes:
`NodeApproval` versus everything else. -/
inductive MessageContent where
  | NodeApproval (gen_info : GenesisPfxInfo)
  | OtherContent (payload : Nat)
deriving DecidableEq, Repr

/-- `RoutingMessage`. -/
structure RoutingMessage where
  content : MessageContent
  src : Authority
  dst : Authority
deriving DecidableEq, Repr

/-- `SignedRoutingMessage` (metadata opaque; signature checks are modelled
as always passing since signatures are opaque). -/
structure SignedRoutingMessage where
  msg : RoutingMessage
  metadata : Nat
deriving DecidableEq, Repr

/-- `HopMessage`. -/
structure HopMessage where
  content : SignedRoutingMessage
deriving DecidableEq, Repr

/-- `Transition` from `state_machine.rs`, restricted to the outcomes the
joining state produces. -/
inductive Transition where
  | Stay
  | IntoAdult (gen_pfx_info : GenesisPfxInfo)
  | Rebootstrap
deriving DecidableEq, Repr

/-- Modelled from the spec: `RoutingMessageFilter`
(`routing_message_filter.rs`) is not among the provided sources.  Per spec
§4.3 incoming routing messages are deduplicated: the filter records each
sighting and reports whether it was new. -/
def filterIncoming (filter : List RoutingMessage) (m : RoutingMessage) :
    Bool × List RoutingMessage :=
  (decide (m ∉ filter), if m ∈ filter then filter else filter ++ [m])

/-- `JoiningPeer` from `states/joining_peer.rs`. -/
structure JoiningPeer where
  routing_msg_filter : List RoutingMessage
  msg_backlog : List SignedRoutingMessage
  full_id : FullId
  min_section_size : Nat
  peer_map : PeerMap
  timer : Timer
  join_token : Nat
  join_attempts : Nat
  conn_infos : List ConnectionInfo
  relocate_payload : Option RelocatePayload
deriving DecidableEq, Repr

/-- The node's own overlay name. -/
def JoiningPeer.name (s : JoiningPeer) : XorName := s.full_id

/-- `JoiningPeer::send_join_requests`: one `JoinRequest` per contact. -/
def JoiningPeer.send_join_requests (s : JoiningPeer) : List Action :=
  s.conn_infos.map fun dst => .sendDirect dst (.JoinRequest s.relocate_payload)

/-- `JoiningPeer::handle_timeout` from `states/joining_peer.rs`. -/
def JoiningPeer.handle_timeout (s : JoiningPeer) (token : Nat) :
    JoiningPeer × List Action × Transition :=
  if s.join_token = token then
    let attempts := s.join_attempts + 1
    if attempts < MAX_JOIN_ATTEMPTS then
      let r := s.timer.schedule JOIN_TIMEOUT
      let s' := { s with join_attempts := attempts, join_token := r.1, timer := r.2 }
      (s', s'.send_join_requests, .Stay)
    else
      let conns := s.peer_map
      let s' := { s with join_attempts := attempts, peer_map := [] }
      (s', conns.map fun c => .disconnectFrom c.peer_addr, .Rebootstrap)
  else
    (s, [], .Stay)

/-- `Base::in_authority` for `JoiningPeer`: single-node destinations with
our own name. -/
def JoiningPeer.in_authority (s : JoiningPeer) (dst : Authority) : Bool :=
  dst.is_single && decide (dst.name = s.name)

/-- `JoiningPeer::dispatch_routing_message`: `NodeApproval` from a section
authority to a node authority is handled; everything else is pushed onto
the message backlog. -/
def JoiningPeer.dispatch_routing_message (s : JoiningPeer)
    (msg : SignedRoutingMessage) : JoiningPeer × Transition :=
  match msg.msg.content, msg.msg.src, msg.msg.dst with
  | .NodeApproval gen_info, .SectionAuth _, .NodeAuth _ =>
    (s, .IntoAdult gen_info)
  | _, _, _ =>
    ({ s with msg_backlog := s.msg_backlog ++ [msg] }, .Stay)

/-- `JoiningPeer::handle_hop_message`: run the duplicate filter, and
dispatch only messages that are new and name this node as destination. -/
def JoiningPeer.handle_hop_message (s : JoiningPeer) (m : HopMessage) :
    JoiningPeer × Transition :=
  let msg := m.content
  let fr := filterIncoming s.routing_msg_filter msg.msg
  let s1 := { s with routing_msg_filter := fr.2 }
  if fr.1 && s1.in_authority msg.msg.dst then
    s1.dispatch_routing_message msg
  else
    (s1, .Stay)

/-- `AdultDetails` (the part of the Adult state populated by
`JoiningPeer::into_adult`). -/
structure AdultState where
  event_backlog : List Nat
  full_id : FullId
  gen_pfx_info : GenesisPfxInfo
  min_section_size : Nat
  msg_backlog : List SignedRoutingMessage
  peer_map : PeerMap
  routing_msg_filter : List RoutingMessage
  timer : Timer
deriving DecidableEq, Repr

/-- `JoiningPeer::into_adult`: the backlog, identity, peer map, filter and
timer carry over. -/
def JoiningPeer.into_adult (s : JoiningPeer) (gen_pfx_info : GenesisPfxInfo) :
    AdultState :=
  { event_backlog := []
    full_id := s.full_id
    gen_pfx_info := gen_pfx_info
    min_section_size := s.min_section_size
    msg_backlog := s.msg_backlog
    peer_map := s.peer_map
    routing_msg_filter := s.routing_msg_filter
    timer := s.timer }

/-- `BootstrappingPeer` from `states/bootstrapping_peer.rs`. -/
structure BootstrappingPeer where
  nodes_to_await : List Nat
  bootstrap_connection : Option (ConnectionInfo × Nat)
  full_id : FullId
  min_section_size : Nat
  peer_map : PeerMap
  timer : Timer
  relocate_details : Option XorName
deriving DecidableEq, Repr

/-- The node's own overlay name. -/
def BootstrappingPeer.name (s : BootstrappingPeer) : XorName := s.full_id

/-- `BootstrappingPeer::new`: asks the link layer to bootstrap and starts
with no active target, no awaited nodes and an empty peer map. -/
def BootstrappingPeer.new (full_id : FullId) (min_section_size : Nat)
    (timer : Timer) : BootstrappingPeer × List Action :=
  (⟨[], none, full_id, min_section_size, [], timer, none⟩, [.bootstrap])

/-- `JoiningPeer::rebootstrap`: builds a `BootstrappingPeer` with a fresh
identity.  The source calls `FullId::new()` (fresh random keypair); the
freshly drawn identity is modelled as the argument `fresh_id`. -/
def JoiningPeer.rebootstrap (s : JoiningPeer) (fresh_id : FullId) :
    BootstrappingPeer × List Action :=
  BootstrappingPeer.new fresh_id s.min_section_size s.timer

/-- `BootstrappingPeer::send_bootstrap_request` from
`states/bootstrapping_peer.rs`: forget the peer among the awaited nodes;
if an active bootstrap connection to a different peer exists, drop the new
connection; otherwise adopt the peer as the bootstrap target, schedule the
bootstrap timeout and send a `BootstrapRequest` (to the relocation
destination if relocating, else to our own name). -/
def BootstrappingPeer.send_bootstrap_request (s : BootstrappingPeer)
    (dst : ConnectionInfo) : BootstrappingPeer × List Action :=
  let s := { s with nodes_to_await := s.nodes_to_await.erase dst.peer_addr }
  match s.bootstrap_connection with
  | some bc =>
    if bc.1 ≠ dst then
      (s, [.disconnectFrom dst.peer_addr])
    else
      (s, [])
  | none =>
    let r := s.timer.schedule BOOTSTRAP_TIMEOUT
    let destination :=
      match s.relocate_details with
      | some d => d
      | none => s.name
    ({ s with
        bootstrap_connection := some (dst, r.1)
        timer := r.2
        peer_map := s.peer_map.connect dst },
      [.sendDirect dst (.BootstrapRequest destination)])

/-- `BootstrappingPeer::handle_bootstrapped_to`: record the connection in
the peer map; send a bootstrap request only when no active bootstrap
connection exists (otherwise the source merely logs a warning). -/
def BootstrappingPeer.handle_bootstrapped_to (s : BootstrappingPeer)
    (conn_info : ConnectionInfo) : BootstrappingPeer × List Action × Transition :=
  let s := { s with peer_map := s.peer_map.connect conn_info }
  if s.bootstrap_connection.isNone then
    let r := s.send_bootstrap_request conn_info
    (r.1, r.2, .Stay)
  else
    (s, [], .Stay)

/-- `BootstrappingPeer::handle_connected_to`: always goes through
`send_bootstrap_request`. -/
def BootstrappingPeer.handle_connected_to (s : BootstrappingPeer)
    (conn_info : ConnectionInfo) : BootstrappingPeer × List Action × Transition :=
  let r := s.send_bootstrap_request conn_info
  (r.1, r.2, .Stay)

/-- Fire the currently scheduled join timer token. -/
def fireJoinTimeout (s : JoiningPeer) : JoiningPeer × List Action × Transition :=
  s.handle_timeout s.join_token

theorem fireJoinTimeout_reschedule (s : JoiningPeer)
    (h : s.join_attempts + 1 < MAX_JOIN_ATTEMPTS) :
    fireJoinTimeout s =
      ({ s with
          join_attempts := s.join_attempts + 1
          join_token := s.timer.next_token
          timer := ⟨s.timer.next_token + 1⟩ },
        s.conn_infos.map
          (fun dst => Action.sendDirect dst (.JoinRequest s.relocate_payload)),
        .Stay) := by
  simp [fireJoinTimeout, JoiningPeer.handle_timeout, h, Timer.schedule,
    JoiningPeer.send_join_requests]

theorem fireJoinTimeout_exhaust (s : JoiningPeer)
    (h : ¬ s.join_attempts + 1 < MAX_JOIN_ATTEMPTS) :
    fireJoinTimeout s =
      ({ s with
          join_attempts := s.join_attempts + 1
          peer_map := [] },
        s.peer_map.map (fun c => Action.disconnectFrom c.peer_addr),
        .Rebootstrap) := by
  simp [fireJoinTimeout, JoiningPeer.handle_timeout, h, Timer.schedule,
    JoiningPeer.send_join_requests]

/-- C6.  Join exhaustion: in the Joining state with
`MAX_JOIN_ATTEMPTS = 3`, each firing of the current join-timer token
increments `join_attempts`; the first two firings reschedule the join
timer and resend a `JoinRequest` to every contact, and the third firing
disconnects from every peer in the peer map and transitions to
Bootstrapping with a freshly generated identity, different from the one
used while joining. -/
theorem join_exhaustion (s : JoiningPeer) (h0 : s.join_attempts = 0)
    (fresh_id : FullId) (hfresh : fresh_id ≠ s.full_id) :
    MAX_JOIN_ATTEMPTS = 3 ∧
    ((fireJoinTimeout s).1.join_attempts = 1 ∧
      (fireJoinTimeout s).2.2 = Transition.Stay ∧
      (fireJoinTimeout s).2.1 = s.conn_infos.map
        (fun dst => Action.sendDirect dst (.JoinRequest s.relocate_payload)) ∧
      (fireJoinTimeout s).1.join_token = s.timer.next_token) ∧
    ((fireJoinTimeout (fireJoinTimeout s).1).1.join_attempts = 2 ∧
      (fireJoinTimeout (fireJoinTimeout s).1).2.2 = Transition.Stay ∧
      (fireJoinTimeout (fireJoinTimeout s).1).2.1 = s.conn_infos.map
        (fun dst => Action.sendDirect dst (.JoinRequest s.relocate_payload))) ∧
    ((fireJoinTimeout (fireJoinTimeout (fireJoinTimeout s).1).1).2.2 =
        Transition.Rebootstrap ∧
      (fireJoinTimeout (fireJoinTimeout (fireJoinTimeout s).1).1).2.1 =
        s.peer_map.map (fun c => Action.disconnectFrom c.peer_addr) ∧
      (fireJoinTimeout (fireJoinTimeout (fireJoinTimeout s).1).1).1.peer_map = [] ∧
      ((fireJoinTimeout (fireJoinTimeout (fireJoinTimeout s).1).1).1.rebootstrap
        fresh_id).1.full_id = fresh_id ∧
      ((fireJoinTimeout (fireJoinTimeout (fireJoinTimeout s).1).1).1.rebootstrap
        fresh_id).1.full_id ≠ s.full_id) := by
  have e1 := fireJoinTimeout_reschedule s (by rw [h0]; decide)
  have e2 := fireJoinTimeout_reschedule (fireJoinTimeout s).1
    (by rw [e1]; simp [h0]; decide)
  have e3 := fireJoinTimeout_exhaust (fireJoinTimeout (fireJoinTimeout s).1).1
    (by rw [e2, e1]; simp [h0]; decide)
  refine ⟨rfl, ⟨?_, ?_, ?_, ?_⟩, ⟨?_, ?_, ?_⟩, ⟨?_, ?_, ?_, ?_, ?_⟩⟩
  · rw [e1, h0]
  · rw [e1]
  · rw [e1]
  · rw [e1]
  · rw [e2, e1, h0]
  · rw [e2]
  · rw [e2, e1]
  · rw [e3]
  · rw [e3, e2, e1]
  · rw [e3]
  · rw [e3]
    rfl
  · rw [e3]
    exact hfresh

/-- Closed witness for C6 at a concrete joining state with two connected
peers and one contact. -/
theorem join_exhaustion_witness :
    (fireJoinTimeout (fireJoinTimeout (fireJoinTimeout
      (JoiningPeer.mk [] [] 42 8 [⟨1⟩, ⟨2⟩] ⟨10⟩ 5 0 [⟨3⟩] none)).1).1).2.2 =
        Transition.Rebootstrap ∧
    ((fireJoinTimeout (fireJoinTimeout (fireJoinTimeout
      (JoiningPeer.mk [] [] 42 8 [⟨1⟩, ⟨2⟩] ⟨10⟩ 5 0 [⟨3⟩] none)).1).1).1.rebootstrap
        43).1.full_id = 43 :=
  ⟨(join_exhaustion (JoiningPeer.mk [] [] 42 8 [⟨1⟩, ⟨2⟩] ⟨10⟩ 5 0 [⟨3⟩] none)
      (by decide) 43 (by decide)).2.2.2.1,
    (join_exhaustion (JoiningPeer.mk [] [] 42 8 [⟨1⟩, ⟨2⟩] ⟨10⟩ 5 0 [⟨3⟩] none)
      (by decide) 43 (by decide)).2.2.2.2.2.2.1⟩

/-- Whether a routing message has the exact shape the joining state
handles directly: `NodeApproval` content from a section authority to a
node authority. -/
def isApprovalShape (m : RoutingMessage) : Bool :=
  match m.content, m.src, m.dst with
  | .NodeApproval _, .SectionAuth _, .NodeAuth _ => true
  | _, _, _ => false

/-- C7 counterexample: a hop message whose destination does not name this
node (our name is 1, the destination names 2) is dropped by
`handle_hop_message` — the message backlog stays empty — refuting the
claim that such messages are queued in `msg_backlog`. -/
theorem joining_backlog_counterexample :
    (JoiningPeer.mk [] [] 1 8 [] ⟨0⟩ 0 0 [] none).in_authority
      (Authority.NodeAuth 2) = false ∧
    ((JoiningPeer.mk [] [] 1 8 [] ⟨0⟩ 0 0 [] none).handle_hop_message
      ⟨⟨⟨.OtherContent 0, .NodeAuth 9, .NodeAuth 2⟩, 0⟩⟩).1.msg_backlog = [] := by
  decide

/-- C7 (as amended).  In the Joining state, a hop message whose
destination does not name this node is dropped (backlog unchanged, state
stays); a hop message that is new to the duplicate filter, names this
node, and is not a `NodeApproval` from a section authority is appended to
`msg_backlog`; and the backlog is carried into the Adult state by
`into_adult`. -/
theorem joining_backlog (s : JoiningPeer) (m : HopMessage) :
    (s.in_authority m.content.msg.dst = false →
      (s.handle_hop_message m).1.msg_backlog = s.msg_backlog ∧
      (s.handle_hop_message m).2 = Transition.Stay) ∧
    (m.content.msg ∉ s.routing_msg_filter →
      s.in_authority m.content.msg.dst = true →
      isApprovalShape m.content.msg = false →
      (s.handle_hop_message m).1.msg_backlog = s.msg_backlog ++ [m.content] ∧
      (s.handle_hop_message m).2 = Transition.Stay) ∧
    (∀ gen, (s.into_adult gen).msg_backlog = s.msg_backlog) := by
  obtain ⟨⟨⟨c, asrc, adst⟩, meta⟩⟩ := m
  refine ⟨?_, ?_, fun _ => rfl⟩
  · intro h
    simp only [JoiningPeer.in_authority, JoiningPeer.name] at h
    simp [JoiningPeer.handle_hop_message, filterIncoming,
      JoiningPeer.in_authority, JoiningPeer.name, h]
  · intro hnew hia hshape
    simp only [JoiningPeer.in_authority, JoiningPeer.name] at hia
    cases c with
    | NodeApproval gen =>
      cases asrc with
      | NodeAuth n =>
        simp [JoiningPeer.handle_hop_message, filterIncoming, hnew,
          JoiningPeer.in_authority, JoiningPeer.name, hia,
          JoiningPeer.dispatch_routing_message]
      | SectionAuth sec =>
        cases adst with
        | NodeAuth node =>
          simp [isApprovalShape] at hshape
        | SectionAuth s2 =>
          simp [Authority.is_single] at hia
    | OtherContent pay =>
      simp [JoiningPeer.handle_hop_message, filterIncoming, hnew,
        JoiningPeer.in_authority, JoiningPeer.name, hia,
        JoiningPeer.dispatch_routing_message]

/-- Closed witness for the amended C7: a message for node 2 is dropped
while our name is 1; a non-approval message for node 1 is backlogged; the
backlog survives `into_adult`. -/
theorem joining_backlog_witness :
    ((JoiningPeer.mk [] [] 1 8 [] ⟨0⟩ 0 0 [] none).handle_hop_message
      ⟨⟨⟨.OtherContent 0, .NodeAuth 9, .NodeAuth 2⟩, 0⟩⟩).1.msg_backlog =
      (JoiningPeer.mk [] [] 1 8 [] ⟨0⟩ 0 0 [] none).msg_backlog ∧
    ((JoiningPeer.mk [] [] 1 8 [] ⟨0⟩ 0 0 [] none).handle_hop_message
      ⟨⟨⟨.OtherContent 0, .NodeAuth 9, .NodeAuth 1⟩, 0⟩⟩).1.msg_backlog =
      (JoiningPeer.mk [] [] 1 8 [] ⟨0⟩ 0 0 [] none).msg_backlog ++
        [⟨⟨.OtherContent 0, .NodeAuth 9, .NodeAuth 1⟩, 0⟩] ∧
    ((JoiningPeer.mk [] [] 1 8 [] ⟨0⟩ 0 0 [] none).into_adult 5).msg_backlog =
      (JoiningPeer.mk [] [] 1 8 [] ⟨0⟩ 0 0 [] none).msg_backlog :=
  ⟨((joining_backlog (JoiningPeer.mk [] [] 1 8 [] ⟨0⟩ 0 0 [] none)
      ⟨⟨⟨.OtherContent 0, .NodeAuth 9, .NodeAuth 2⟩, 0⟩⟩).1 (by decide)).1,
    ((joining_backlog (JoiningPeer.mk [] [] 1 8 [] ⟨0⟩ 0 0 [] none)
      ⟨⟨⟨.OtherContent 0, .NodeAuth 9, .NodeAuth 1⟩, 0⟩⟩).2.1
      (by decide) (by decide) (by decide)).1,
    (joining_backlog (JoiningPeer.mk [] [] 1 8 [] ⟨0⟩ 0 0 [] none)
      ⟨⟨⟨.OtherContent 0, .NodeAuth 9, .NodeAuth 1⟩, 0⟩⟩).2.2 5⟩

/-- C8 counterexample: with an active bootstrap target (peer 1, token 7),
a `BootstrappedTo` event from the different peer 2 produces no outward
action at all — in particular no disconnect of peer 2 — refuting the
claim that the new connection is dropped on `BootstrappedTo`. -/
theorem bootstrap_target_exclusivity_counterexample :
    (BootstrappingPeer.mk [] (some (⟨1⟩, 7)) 42 8 [⟨1⟩]
      ⟨10⟩ none).bootstrap_connection = some (⟨1⟩, 7) ∧
    (⟨2⟩ : ConnectionInfo) ≠ (⟨1⟩ : ConnectionInfo) ∧
    ((BootstrappingPeer.mk [] (some (⟨1⟩, 7)) 42 8 [⟨1⟩]
      ⟨10⟩ none).handle_bootstrapped_to ⟨2⟩).2.1 = [] ∧
    Action.disconnectFrom 2 ∉
      ((BootstrappingPeer.mk [] (some (⟨1⟩, 7)) 42 8 [⟨1⟩]
        ⟨10⟩ none).handle_bootstrapped_to ⟨2⟩).2.1 := by
  decide

/-- C8 (as amended).  With an active bootstrap target `(b, tok)` and a new
connection to a different peer: a `ConnectedTo` event drops the new
connection (a single disconnect of the new peer) and keeps the target and
timer token unchanged; a `BootstrappedTo` event merely records the peer —
no disconnect is issued — and also keeps the target and token
unchanged. -/
theorem bootstrap_target_exclusivity (s : BootstrappingPeer)
    (ci b : ConnectionInfo) (tok : Nat)
    (h : s.bootstrap_connection = some (b, tok)) (hne : b ≠ ci) :
    ((s.handle_connected_to ci).2.1 = [Action.disconnectFrom ci.peer_addr] ∧
      (s.handle_connected_to ci).1.bootstrap_connection = some (b, tok) ∧
      (s.handle_connected_to ci).2.2 = Transition.Stay) ∧
    ((s.handle_bootstrapped_to ci).2.1 = [] ∧
      (s.handle_bootstrapped_to ci).1.bootstrap_connection = some (b, tok) ∧
      (s.handle_bootstrapped_to ci).2.2 = Transition.Stay) := by
  constructor
  · simp [BootstrappingPeer.handle_connected_to,
      BootstrappingPeer.send_bootstrap_request, h, hne]
  · simp [BootstrappingPeer.handle_bootstrapped_to, h]

/-- Closed witness for the amended C8 at a concrete state: target peer 1
with token 7; the new connection is peer 2. -/
theorem bootstrap_target_exclusivity_witness :
    ((BootstrappingPeer.mk [] (some (⟨1⟩, 7)) 42 8 [⟨1⟩]
      ⟨10⟩ none).handle_connected_to ⟨2⟩).2.1 = [Action.disconnectFrom 2] ∧
    ((BootstrappingPeer.mk [] (some (⟨1⟩, 7)) 42 8 [⟨1⟩]
      ⟨10⟩ none).handle_connected_to ⟨2⟩).1.bootstrap_connection =
        some (⟨1⟩, 7) ∧
    ((BootstrappingPeer.mk [] (some (⟨1⟩, 7)) 42 8 [⟨1⟩]
      ⟨10⟩ none).handle_bootstrapped_to ⟨2⟩).2.1 = [] :=
  ⟨((bootstrap_target_exclusivity
      (BootstrappingPeer.mk [] (some (⟨1⟩, 7)) 42 8 [⟨1⟩] ⟨10⟩ none)
      ⟨2⟩ ⟨1⟩ 7 (by decide) (by decide)).1).1,
    ((bootstrap_target_exclusivity
      (BootstrappingPeer.mk [] (some (⟨1⟩, 7)) 42 8 [⟨1⟩] ⟨10⟩ none)
      ⟨2⟩ ⟨1⟩ 7 (by decide) (by decide)).1).2.1,
    ((bootstrap_target_exclusivity
      (BootstrappingPeer.mk [] (some (⟨1⟩, 7)) 42 8 [⟨1⟩] ⟨10⟩ none)
      ⟨2⟩ ⟨1⟩ 7 (by decide) (by decide)).2).1⟩

end Routing
